import Mathlib

/-!
Shallow embedding of `src/boun_course_scraper.py` (BOUN course scraper).

Strings are modelled as Lean `String`s; Python's `str.strip()` is modelled by
`pyStrip` (dropping the ASCII whitespace characters that `str.strip()` removes;
non-ASCII Unicode whitespace is outside the inputs this program meets and is
not modelled).  `re.findall` over the two concrete patterns of the source
(`(Th|W|M|F|T|S)` and `(10|11|[1-9])`) is embedded as the structurally
recursive left-to-right scans `findDays` and `findHours`: at each position the
alternatives are tried in the pattern's order, a match consumes its characters
and is emitted, and a non-matching character is skipped — exactly `re.findall`'s
behaviour for these alternations of literals and a character class.

Python's `int(...)` and `float(...)` literal parsing is embedded by `pyInt` and
`pyFloat`: surrounding whitespace, an optional sign, digit runs in which an
underscore may stand only between two digits, and (for floats) an optional
fraction and exponent as well as the case-insensitive special texts
`inf`/`infinity`/`nan`.  Float values are `FloatVal`s: finite values are
represented exactly as rationals (`ℚ`), with explicit constructors for the
infinities and NaN.
-/

namespace BounScraper

/-- The ASCII whitespace characters removed by Python's `str.strip()`. -/
def pyWS (c : Char) : Bool :=
  c = ' ' || c = '\t' || c = '\n' || c = '\r' || c = '\x0b' || c = '\x0c'

/-- Remove leading and trailing whitespace from a character list
(the list-level model of `str.strip()`). -/
def trimList (l : List Char) : List Char :=
  (((l.dropWhile pyWS).reverse).dropWhile pyWS).reverse

/-- `str.strip()`. -/
def pyStrip (s : String) : String :=
  String.mk (trimList s.data)

/-- `str.replace(" ", "")`: remove every space character (only U+0020). -/
def removeSpaces (s : String) : String :=
  String.mk (s.data.filter (fun c => c ≠ ' '))

/-- `str.upper()` for the ASCII letters the scraper compares
(`Char.toUpper` uppercases exactly the ASCII range, as Python does there). -/
def pyUpper (s : String) : String :=
  String.mk (s.data.map Char.toUpper)

/-- Whether the first list is a prefix of the second. -/
def isPrefixList : List Char → List Char → Bool
  | [], _ => true
  | _ :: _, [] => false
  | a :: as, b :: bs => a = b && isPrefixList as bs

/-- Whether the first list occurs contiguously inside the second. -/
def isInfixList : List Char → List Char → Bool
  | n, [] => n.isEmpty
  | n, c :: t => isPrefixList n (c :: t) || isInfixList n t

/-- Python's `needle in hay` substring test. -/
def containsSub (needle hay : String) : Bool :=
  isInfixList needle.data hay.data

/-- Split a character list on the newline character
(the model of `str.split('\n')`). -/
def splitNl : List Char → List Char → List String
  | [], acc => [String.mk acc.reverse]
  | '\n' :: r, acc => String.mk acc.reverse :: splitNl r []
  | c :: r, acc => splitNl r (c :: acc)

/-- `parse_list_of_strings` (source lines 31–35): strip, return `[]` for
empty/whitespace-only input, else split the stripped text on newlines and
keep the non-empty items. -/
def parse_list_of_strings (s : String) : List String :=
  let t := trimList s.data
  if t.isEmpty then [] else (splitNl t []).filter (fun x => x ≠ "")

/-- The scan embedded from `re.findall(r'(Th|W|M|F|T|S)', s)` (source line 44):
at each position try `Th` first, then the single letters in the pattern's
order, and skip a character that matches none. -/
def findDays : List Char → List String
  | [] => []
  | 'T' :: 'h' :: r => "Th" :: findDays r
  | c :: r =>
    if c = 'W' then "W" :: findDays r
    else if c = 'M' then "M" :: findDays r
    else if c = 'F' then "F" :: findDays r
    else if c = 'T' then "T" :: findDays r
    else if c = 'S' then "S" :: findDays r
    else findDays r

/-- The scan embedded from `re.findall(r'(10|11|[1-9])', s)` (source line 54):
at each position try `10`, then `11`, then a single digit `1`–`9`, and skip a
character that matches none. -/
def findHours : List Char → List String
  | [] => []
  | '1' :: '0' :: r => "10" :: findHours r
  | '1' :: '1' :: r => "11" :: findHours r
  | c :: r =>
    if '1' ≤ c ∧ c ≤ '9' then String.mk [c] :: findHours r
    else findHours r

/-- `parse_days` (source lines 37–45): `[]` for empty/whitespace-only input,
else the regex scan over the stripped text. -/
def parse_days (s : String) : List String :=
  let t := trimList s.data
  if t.isEmpty then [] else findDays t

/-- `parse_hours` (source lines 47–55): `[]` for empty/whitespace-only input,
else the regex scan over the stripped text. -/
def parse_hours (s : String) : List String :=
  let t := trimList s.data
  if t.isEmpty then [] else findHours t

/-- The single-letter day tokens of the claims' token set. -/
def dayLetter (c : Char) : Bool :=
  c = 'W' || c = 'M' || c = 'F' || c = 'T' || c = 'S'

/-- The day scan as the claims word it: greedy left-to-right matching against
the token set, preferring the two-letter token `Th` over the single-letter
token `T` at each position, silently skipping non-matching characters. -/
def findDaysSpec : List Char → List String
  | [] => []
  | c :: r =>
    if c = 'T' ∧ r.head? = some 'h' then "Th" :: findDaysSpec r.tail
    else if dayLetter c then String.mk [c] :: findDaysSpec r
    else findDaysSpec r
termination_by l => l.length
decreasing_by
  all_goals simp [List.length_tail]
  all_goals omega

/-- The hour scan as the claims word it: greedy left-to-right scanning that
prefers the two-digit tokens `10` and `11` over a single digit at each
position, matches digits `1`–`9` individually otherwise, and silently skips
characters that match no token. -/
def findHoursSpec : List Char → List String
  | [] => []
  | c :: r =>
    if c = '1' ∧ r.head? = some '0' then "10" :: findHoursSpec r.tail
    else if c = '1' ∧ r.head? = some '1' then "11" :: findHoursSpec r.tail
    else if '1' ≤ c ∧ c ≤ '9' then String.mk [c] :: findHoursSpec r
    else findHoursSpec r
termination_by l => l.length
decreasing_by
  all_goals simp [List.length_tail]
  all_goals omega

/-- Read an optional leading sign, as Python's numeric literal parsing does. -/
def readSign : List Char → Int × List Char
  | '+' :: r => (1, r)
  | '-' :: r => (-1, r)
  | l => (1, l)

/-- Continue a digit run already begun by a digit: further digits, or an
underscore that stands between two digits (Python's PEP 515 rule); return the
digits read (underscores removed) and the rest of the input. -/
def digitsUCont : List Char → List Char × List Char
  | [] => ([], [])
  | c :: rest =>
    if c.isDigit then
      let p := digitsUCont rest
      (c :: p.1, p.2)
    else if c = '_' then
      match rest with
      | d :: rest2 =>
        if d.isDigit then
          let p := digitsUCont rest2
          (d :: p.1, p.2)
        else ([], c :: rest)
      | [] => ([], [c])
    else ([], c :: rest)

/-- Consume a maximal digit run with single underscores between digits.  The
run must *begin* with a digit — a leading underscore starts no run, exactly
as in Python, where `int("_5")` raises. -/
def digitsU : List Char → List Char × List Char
  | [] => ([], [])
  | c :: rest =>
    if c.isDigit then
      let p := digitsUCont rest
      (c :: p.1, p.2)
    else ([], c :: rest)

/-- Numeric value of a digit list. -/
def natOfDigits (ds : List Char) : Nat :=
  ds.foldl (fun a c => a * 10 + (c.toNat - 48)) 0

/-- The rational `±(n0 / den0)`, built in lowest terms directly from the
constructor (so that it evaluates by kernel reduction). -/
def ratND (neg : Bool) (n0 den0 : Nat) : ℚ :=
  if hden : den0 = 0 then 0
  else
    have hg : 0 < Nat.gcd n0 den0 := Nat.gcd_pos_of_pos_right n0 (Nat.pos_of_ne_zero hden)
    have h1 : den0 / Nat.gcd n0 den0 ≠ 0 := by
      have hpos := Nat.div_pos
        (Nat.le_of_dvd (Nat.pos_of_ne_zero hden) (Nat.gcd_dvd_right n0 den0)) hg
      omega
    have h2 : Nat.Coprime (n0 / Nat.gcd n0 den0) (den0 / Nat.gcd n0 den0) :=
      Nat.coprime_div_gcd_div_gcd hg
    if neg then
      ⟨-((n0 / Nat.gcd n0 den0 : Nat) : Int), den0 / Nat.gcd n0 den0, h1,
        by simpa [Int.natAbs_neg] using h2⟩
    else
      ⟨((n0 / Nat.gcd n0 den0 : Nat) : Int), den0 / Nat.gcd n0 den0, h1, by simpa using h2⟩

/-- The rational `± M / 10^k * 10^e` of a decimal literal with mantissa
digits of value `M`, `k` fractional digits and exponent `e`. -/
def ratParts (neg : Bool) (M k : Nat) (e : Int) : ℚ :=
  if 0 ≤ e then ratND neg (M * 10 ^ e.toNat) (10 ^ k)
  else ratND neg M (10 ^ k * 10 ^ (-e).toNat)

/-- Parse the remainder of a float literal as an optional exponent part;
`some e` when the remainder is empty or a complete well-formed exponent. -/
def readExp : List Char → Option Int
  | [] => some 0
  | e :: r =>
    if e = 'e' ∨ e = 'E' then
      let (sg, r1) := readSign r
      let p := digitsU r1
      if ¬p.1.isEmpty ∧ p.2.isEmpty then some (sg * (natOfDigits p.1 : Int))
      else none
    else none

/-- The integer accepted by Python's `int(str)`, if any: surrounding
whitespace, an optional sign, then a non-empty underscore-grouped digit run
covering the rest of the text.  (Non-ASCII digit characters are outside the
model.) -/
def pyInt (s : String) : Option Int :=
  let (sg, r) := readSign (trimList s.data)
  let p := digitsU r
  if ¬p.1.isEmpty ∧ p.2.isEmpty then some (sg * (natOfDigits p.1 : Int))
  else none

/-- The value of a Python float as this embedding represents it: finite
values exactly as rationals, and the special values `float("inf")`,
`float("-inf")` and `float("nan")` as their own constructors. -/
inductive FloatVal where
  | fin (q : ℚ)
  | inf (neg : Bool)
  | nan
deriving DecidableEq

/-- The value accepted by Python's `float(str)`, if any: surrounding
whitespace, optional sign, then either the case-insensitive special words
`inf`/`infinity`/`nan` or a decimal literal with integer and/or fractional
digit runs and an optional exponent.  (The sign of a NaN is dropped, as
`float("-nan")` still prints `nan`.) -/
def pyFloat (s : String) : Option FloatVal :=
  let (sg, r) := readSign (trimList s.data)
  let low := r.map Char.toLower
  if low = "inf".data ∨ low = "infinity".data then some (FloatVal.inf (decide (sg < 0)))
  else if low = "nan".data then some FloatVal.nan
  else
    let ip := digitsU r
    match ip.2 with
    | '.' :: r2 =>
      let fp := digitsU r2
      if ip.1.isEmpty ∧ fp.1.isEmpty then none
      else
        match readExp fp.2 with
        | some e =>
          some (FloatVal.fin (ratParts (decide (sg < 0))
            (natOfDigits ip.1 * 10 ^ fp.1.length + natOfDigits fp.1) fp.1.length e))
        | none => none
    | _ =>
      if ip.1.isEmpty then none
      else
        match readExp ip.2 with
        | some e => some (FloatVal.fin (ratParts (decide (sg < 0)) (natOfDigits ip.1) 0 e))
        | none => none

/-- `int(credit_str)` as a fallible computation: `ok` on a valid literal,
`error` for the `ValueError` Python raises otherwise. -/
def int_py (s : String) : Except Unit Int :=
  match pyInt s with
  | some n => Except.ok n
  | none => Except.error ()

/-- `float(ects_str)` as a fallible computation. -/
def float_py (s : String) : Except Unit FloatVal :=
  match pyFloat s with
  | some v => Except.ok v
  | none => Except.error ()

/-- `parse_credits` (source lines 17–22): `try: return int(s) except: return 0`. -/
def parse_credits (s : String) : Int :=
  match int_py s with
  | Except.ok n => n
  | Except.error _ => 0

/-- `parse_ects` (source lines 24–29): `try: return float(s) except: return 0.0`. -/
def parse_ects (s : String) : FloatVal :=
  match float_py s with
  | Except.ok v => v
  | Except.error _ => FloatVal.fin 0

/-! ## Row processing (`scrape_boun_schedule`, source lines 128–228)

A table cell is its rendered text together with the texts of its child
`<span>` elements (the only child elements the code reads, and only for the
rooms column).  A row is the ordered list of its cells; rows with fewer than
10 cells are discarded by the code.  The mutable Python state — the `results`
dict and the `last_course_key` variable — is modelled as `ScrapeState`, with
the dict as an insertion-ordered association list (updating an existing key
keeps its position, as a Python dict does).  A `KeyError` raised while a
continuation row extends a missing `days`/`hours` list is modelled by
`Except.error`; mutations already applied before the raise are kept, as they
are in Python, and the surrounding per-department `try/except` stops the
department's row scan at the failing row. -/

/-- A table cell: rendered text and child `<span>` texts. -/
structure Cell where
  text : String
  spans : List String
deriving DecidableEq

/-- One course record (`course_data` in the source).  `ects` is the parsed
float value (`FloatVal`: exact rational when finite).  Optional dict keys are
`Option`s. -/
structure Course where
  code : String
  name : String
  credits : Int
  ects : FloatVal
  instructor : String
  requiredForDept : Option (List String)
  days : Option (List String)
  hours : Option (List String)
  rooms : List String
deriving DecidableEq

/-- The mutable state of the scraping loop: the `results` dict (as an
insertion-ordered association list) and `last_course_key`. -/
structure ScrapeState where
  results : List (String × Course)
  lastKey : Option String
deriving DecidableEq

/-- Dict lookup. -/
def lookupR (k : String) : List (String × Course) → Option Course
  | [] => none
  | (k', v) :: t => if k' = k then some v else lookupR k t

/-- Dict assignment `results[k] = v`: update in place if the key exists,
else append at the end (Python dict insertion order). -/
def insertR (k : String) (v : Course) : List (String × Course) → List (String × Course)
  | [] => [(k, v)]
  | (k', v') :: t => if k' = k then (k, v) :: t else (k', v') :: insertR k v t

/-- The keys of the dict, in order. -/
def keysR (l : List (String × Course)) : List String :=
  l.map Prod.fst

/-- `cols[i]`; total via a default that rows never reach (rows shorter than
10 cells are discarded before any access). -/
def cellAt (row : List Cell) (i : Nat) : Cell :=
  row.getD i ⟨"", []⟩

/-- The non-empty stripped texts of a cell's child spans, in order
(`[span.text.strip() for span in spans if span.text.strip()]`). -/
def spanTexts (cell : Cell) : List String :=
  cell.spans.filterMap (fun s => if pyStrip s = "" then none else some (pyStrip s))

/-- Room resolution on the new-record path (source lines 209–222). -/
def roomsNew (cell : Cell) : List String :=
  let t := pyStrip cell.text
  if containsSub "Online" t then ["Online"]
  else if t ≠ "" then parse_list_of_strings t
  else if ¬cell.spans.isEmpty then spanTexts cell
  else ["N/A"]

/-- Room resolution on the continuation path (source lines 163–175): extend
the existing list; when the cell is empty and has no spans nothing is added. -/
def contRooms (rs : List String) (cell : Cell) : List String :=
  let t := pyStrip cell.text
  if containsSub "Online" t then rs ++ ["Online"]
  else if t ≠ "" then rs ++ parse_list_of_strings t
  else if ¬cell.spans.isEmpty then rs ++ spanTexts cell
  else rs

/-- The days part of a continuation row (source lines 159–160):
`results[k]["days"].extend(parse_days(cols[7].text))` when the cell is
non-empty.  On a record whose dict has no `days` key the lookup raises a
`KeyError`, modelled as `Except.error` carrying the record unchanged. -/
def stepDays (c : Course) (d7 : String) : Except Course Course :=
  if pyStrip d7 ≠ "" then
    match c.days with
    | none => Except.error c
    | some ds => Except.ok { c with days := some (ds ++ parse_days d7) }
  else Except.ok c

/-- The hours part of a continuation row (source lines 161–162). -/
def stepHours (c : Course) (d8 : String) : Except Course Course :=
  if pyStrip d8 ≠ "" then
    match c.hours with
    | none => Except.error c
    | some hs => Except.ok { c with hours := some (hs ++ parse_hours d8) }
  else Except.ok c

/-- Apply a continuation row to the current record (source lines 157–176):
days, then hours, then rooms, stopping at the first `KeyError` and keeping
the mutations already applied.  The rooms step never fails. -/
def contCourse (c : Course) (row : List Cell) : Except Course Course :=
  match stepDays c (cellAt row 7).text with
  | Except.error c1 => Except.error c1
  | Except.ok c1 =>
    match stepHours c1 (cellAt row 8).text with
    | Except.error c2 => Except.error c2
    | Except.ok c2 => Except.ok { c2 with rooms := contRooms c2.rooms (cellAt row 9) }

/-- Build the key and record of a new-record row (source lines 181–222). -/
def newEntry (row : List Cell) : String × Course :=
  let code_raw := pyStrip (cellAt row 0).text
  let name_raw := pyStrip (cellAt row 2).text
  let sect := removeSpaces (pyStrip (cellAt row 1).text)
  let base := removeSpaces code_raw
  let key :=
    if (containsSub "LAB" (pyUpper name_raw) || containsSub "P.S." (pyUpper name_raw))
        && sect ≠ "" then base ++ "." ++ sect
    else base
  (key,
    { code := code_raw
      name := name_raw
      credits := parse_credits (pyStrip (cellAt row 3).text)
      ects := parse_ects (pyStrip (cellAt row 4).text)
      instructor := pyStrip (cellAt row 6).text
      requiredForDept :=
        if pyStrip (cellAt row 5).text ≠ "" then
          some (parse_list_of_strings (cellAt row 5).text)
        else none
      days :=
        if pyStrip (cellAt row 7).text ≠ "" then some (parse_days (cellAt row 7).text)
        else none
      hours :=
        if pyStrip (cellAt row 8).text ≠ "" then some (parse_hours (cellAt row 8).text)
        else none
      rooms := roomsNew (cellAt row 9) })

/-- Process one table row (source lines 148–224).  `Except.error` is the
propagation of a `KeyError` out of the row to the department-level handler;
the carried state keeps every mutation applied before the raise. -/
def processRowE (st : ScrapeState) (row : List Cell) : Except ScrapeState ScrapeState :=
  if row.length < 10 then Except.ok st
  else
    let code_raw := pyStrip (cellAt row 0).text
    if code_raw = "" then
      match st.lastKey with
      | some k =>
        if k ≠ "" then
          match lookupR k st.results with
          | some c =>
            match contCourse c row with
            | Except.ok c2 => Except.ok { st with results := insertR k c2 st.results }
            | Except.error c2 => Except.error { st with results := insertR k c2 st.results }
          | none => Except.ok st
        else Except.ok st
      | none => Except.ok st
    else
      let e := newEntry row
      Except.ok { results := insertR e.1 e.2 st.results, lastKey := some e.1 }

/-- The state left behind by a row whether or not it raised (a raise is
caught at department level; the mutations before it persist). -/
def rowOutcome (r : Except ScrapeState ScrapeState) : ScrapeState :=
  match r with
  | Except.ok st => st
  | Except.error st => st

/-- Scan one department page's rows.  An exception from a row is caught by the
department-level `try/except` (source lines 226–228): the remaining rows of
that department are skipped and the state as mutated so far is kept. -/
def processRows (st : ScrapeState) : List (List Cell) → ScrapeState
  | [] => st
  | row :: rest =>
    match processRowE st row with
    | Except.ok st2 => processRows st2 rest
    | Except.error st2 => st2

/-- The whole scraping loop over department pages (source lines 128–228):
`results = {}` and `last_course_key = None` are initialized once, before the
department loop, and the same state flows through every department. -/
def scrape (depts : List (List (List Cell))) : ScrapeState :=
  depts.foldl processRows ⟨[], none⟩

/-! ## Semester fetching (`fetch_semesters_from_website`, source lines 255–273)

The selenium environment is abstracted to what the function reads: whether a
driver was acquired at all, and — once a page is loaded — whether the semester
`<select>` element is found (`none` models `find_element` raising) together
with the `value` attributes of its options (`""` models a falsy attribute).
The body is a `try`/`finally` with no `except`: the `finally` quits the driver
and the exception keeps propagating, modelled as `Except.error`. -/

/-- The browser-session view that `fetch_semesters_from_website` consumes. -/
structure SemDriver where
  selectOptions : Option (List String)
deriving DecidableEq

/-- `fetch_semesters_from_website`: no driver means a printed message and an
empty list; with a driver, a missing selector raises (the `try/finally` has no
`except`, so after `driver.quit()` the exception reaches the caller); else the
truthy option values are collected. -/
def fetch_semesters_from_website (driver : Option SemDriver) : Except Unit (List String) :=
  match driver with
  | none => Except.ok []
  | some d =>
    match d.selectOptions with
    | none => Except.error ()
    | some opts => Except.ok (opts.filter (fun v => v ≠ ""))

instance {ε α : Type} [DecidableEq ε] [DecidableEq α] : DecidableEq (Except ε α) := fun a b =>
  match a, b with
  | Except.ok x, Except.ok y =>
    if h : x = y then isTrue (by rw [h]) else isFalse (by intro hc; cases hc; exact h rfl)
  | Except.ok _, Except.error _ => isFalse (by intro hc; cases hc)
  | Except.error _, Except.ok _ => isFalse (by intro hc; cases hc)
  | Except.error x, Except.error y =>
    if h : x = y then isTrue (by rw [h]) else isFalse (by intro hc; cases hc; exact h rfl)

/-! ## Concrete inputs used by the claims -/

/-- Row A of the spec's end-to-end scenario. -/
def rowA : List Cell :=
  [⟨"CMPE150", []⟩, ⟨" A", []⟩, ⟨"Intro to Computing", []⟩, ⟨"3", []⟩, ⟨"6", []⟩,
   ⟨"", []⟩, ⟨"Doe", []⟩, ⟨"MW", []⟩, ⟨"910", []⟩, ⟨"101", []⟩]

/-- Row B (continuation) of the spec's end-to-end scenario. -/
def rowB : List Cell :=
  [⟨"", []⟩, ⟨"", []⟩, ⟨"", []⟩, ⟨"", []⟩, ⟨"", []⟩,
   ⟨"", []⟩, ⟨"", []⟩, ⟨"F", []⟩, ⟨"11", []⟩, ⟨"102", []⟩]

/-- The record the end-to-end scenario should produce. -/
def courseC1 : Course :=
  { code := "CMPE150", name := "Intro to Computing", credits := 3,
    ects := FloatVal.fin 6,
    instructor := "Doe", requiredForDept := none,
    days := some ["M", "W", "F"], hours := some ["9", "10", "11"],
    rooms := ["101", "102"] }

/-- A department-1 row creating a record (for the cross-department test). -/
def rowDept1 : List Cell :=
  [⟨"PHYS101", []⟩, ⟨"1", []⟩, ⟨"Mechanics", []⟩, ⟨"4", []⟩, ⟨"6", []⟩,
   ⟨"", []⟩, ⟨"Roe", []⟩, ⟨"M", []⟩, ⟨"9", []⟩, ⟨"EF101", []⟩]

/-- A continuation row standing first on department 2's page. -/
def rowDept2 : List Cell :=
  [⟨"", []⟩, ⟨"", []⟩, ⟨"", []⟩, ⟨"", []⟩, ⟨"", []⟩,
   ⟨"", []⟩, ⟨"", []⟩, ⟨"F", []⟩, ⟨"10", []⟩, ⟨"EF102", []⟩]

/-- The record `rowDept1` creates, after `rowDept2` has been merged into it. -/
def coursePhys : Course :=
  { code := "PHYS101", name := "Mechanics", credits := 4, ects := FloatVal.fin 6,
    instructor := "Roe", requiredForDept := none,
    days := some ["M", "F"], hours := some ["9", "10"],
    rooms := ["EF101", "EF102"] }

/-- A record created from a row whose days and hours cells were empty
(so its dict has no `days`/`hours` keys). -/
def courseNoDays : Course :=
  { code := "X1", name := "X1", credits := 0, ects := FloatVal.fin 0, instructor := "",
    requiredForDept := none, days := none, hours := none, rooms := ["N/A"] }

/-- A state in which `courseNoDays` is the current record. -/
def stNoDays : ScrapeState := ⟨[("X1", courseNoDays)], some "X1"⟩

/-- A continuation row whose days cell is non-empty. -/
def rowContDays : List Cell :=
  [⟨"", []⟩, ⟨"", []⟩, ⟨"", []⟩, ⟨"", []⟩, ⟨"", []⟩,
   ⟨"", []⟩, ⟨"", []⟩, ⟨"F", []⟩, ⟨"", []⟩, ⟨"", []⟩]

/-- A new-record row whose rooms cell has empty text and a single
whitespace-only child span. -/
def rowBlankSpan : List Cell :=
  [⟨"EC101", []⟩, ⟨"1", []⟩, ⟨"Econ", []⟩, ⟨"3", []⟩, ⟨"6", []⟩,
   ⟨"", []⟩, ⟨"A", []⟩, ⟨"", []⟩, ⟨"", []⟩, ⟨"", [" "]⟩]

/-- A new-record row whose course-code cell contains an internal tab. -/
def rowTabCode : List Cell :=
  [⟨"CMPE\t150", []⟩, ⟨"1", []⟩, ⟨"Intro", []⟩, ⟨"3", []⟩, ⟨"6", []⟩,
   ⟨"", []⟩, ⟨"A", []⟩, ⟨"", []⟩, ⟨"", []⟩, ⟨"", []⟩]

/-- Lab row, section A, of the key-disambiguation scenario. -/
def rowLabA : List Cell :=
  [⟨"CMPE150", []⟩, ⟨"A", []⟩, ⟨"CMPE150 LAB", []⟩, ⟨"0", []⟩, ⟨"0", []⟩,
   ⟨"", []⟩, ⟨"X", []⟩, ⟨"", []⟩, ⟨"", []⟩, ⟨"", []⟩]

/-- Lab row, section B, of the key-disambiguation scenario. -/
def rowLabB : List Cell :=
  [⟨"CMPE150", []⟩, ⟨"B", []⟩, ⟨"CMPE150 LAB", []⟩, ⟨"0", []⟩, ⟨"0", []⟩,
   ⟨"", []⟩, ⟨"X", []⟩, ⟨"", []⟩, ⟨"", []⟩, ⟨"", []⟩]

/-- Remove every whitespace character anywhere in the string (what the
claims' phrase "with whitespace removed" literally denotes). -/
def removeAllWhitespace (s : String) : String :=
  String.mk (s.data.filter (fun c => !pyWS c))

/-- The record key as the amended claim describes it: the stripped course
code with space characters removed; when the course name, uppercased,
contains `LAB` or `P.S.` and the stripped section with spaces removed is
non-empty, the base key followed by `.` and that section. -/
def keySpec (row : List Cell) : String :=
  let base := removeSpaces (pyStrip (cellAt row 0).text)
  let sect := removeSpaces (pyStrip (cellAt row 1).text)
  let nameU := pyUpper (pyStrip (cellAt row 2).text)
  if (containsSub "LAB" nameU || containsSub "P.S." nameU) && sect ≠ "" then
    base ++ "." ++ sect
  else base

end BounScraper

open BounScraper

/-- **C1.** For a department page consisting of exactly the scenario's two
rows, the row-processing procedure produces exactly one record, keyed
`CMPE150`, with days `[M, W, F]`, hours `[9, 10, 11]`, rooms `[101, 102]`
(and the expected remaining fields). -/
theorem c1_end_to_end_scenario :
    processRows ⟨[], none⟩ [rowA, rowB] = ⟨[("CMPE150", courseC1)], some "CMPE150"⟩ := by
  decide

/-- **C3.** The code at the failing input: `last_course_key` is initialized
once, before the department loop, and is *not* reset per department page.  A
continuation row standing first on department 2's page is therefore merged
into the record created while scanning department 1 — its day `F`, hour `10`
and room `EF102` land in `PHYS101` — instead of being dropped as the claim's
per-department reset would require. -/
theorem c3_pointer_not_reset_across_departments :
    scrape [[rowDept1], [rowDept2]] = ⟨[("PHYS101", coursePhys)], some "PHYS101"⟩ ∧
      coursePhys.days = some ["M", "F"] := by
  decide

namespace BounScraper

theorem pyWS_cases (c : Char) (h : pyWS c = true) :
    c = ' ' ∨ c = '\t' ∨ c = '\n' ∨ c = '\r' ∨ c = '\x0b' ∨ c = '\x0c' := by
  have h2 := h
  simp [pyWS] at h2
  tauto

theorem findHours_cons (c : Char) (r : List Char) :
    findHours (c :: r) =
      if c = '1' ∧ r.head? = some '0' then "10" :: findHours r.tail
      else if c = '1' ∧ r.head? = some '1' then "11" :: findHours r.tail
      else if '1' ≤ c ∧ c ≤ '9' then String.mk [c] :: findHours r
      else findHours r := by
  by_cases hc : c = '1'
  · subst hc
    cases r with
    | nil => simp [findHours]
    | cons d r2 =>
      by_cases hd0 : d = '0'
      · subst hd0
        simp [findHours]
      · by_cases hd1 : d = '1'
        · subst hd1
          simp [findHours]
        · rw [findHours.eq_def]
          split
          · simp_all
          · simp_all
          · simp_all
          · rename_i heq
            obtain ⟨rfl, rfl⟩ := heq
            simp [hd0, hd1]
  · rw [findHours.eq_def]
    cases r with
    | nil => simp_all
    | cons d r2 => split <;> simp_all

theorem findHours_ws (c : Char) (r : List Char) (hc : pyWS c = true) :
    findHours (c :: r) = findHours r := by
  have h1 : c ≠ '1' := by
    rcases pyWS_cases c hc with rfl | rfl | rfl | rfl | rfl | rfl <;> decide
  have h2 : ¬('1' ≤ c ∧ c ≤ '9') := by
    rcases pyWS_cases c hc with rfl | rfl | rfl | rfl | rfl | rfl <;> decide
  rw [findHours_cons, if_neg (fun h => h1 h.1), if_neg (fun h => h1 h.1), if_neg h2]

theorem findHours_all_ws (t : List Char) (ht : ∀ c ∈ t, pyWS c = true) :
    findHours t = [] := by
  induction t with
  | nil => rfl
  | cons c r ih =>
    rw [findHours_ws c r (ht c (by simp))]
    exact ih (fun d hd => ht d (by simp [hd]))

theorem findHours_append_ws (t : List Char) (ht : ∀ c ∈ t, pyWS c = true) :
    ∀ l, findHours (l ++ t) = findHours l := by
  suffices H : ∀ n l, l.length ≤ n → findHours (l ++ t) = findHours l from
    fun l => H l.length l le_rfl
  intro n
  induction n with
  | zero =>
    intro l hl
    obtain rfl : l = [] := List.length_eq_zero.mp (Nat.le_zero.mp hl)
    simpa [findHours] using findHours_all_ws t ht
  | succ n ih =>
    intro l hl
    match l with
    | [] => simpa [findHours] using findHours_all_ws t ht
    | c :: r =>
      rw [List.cons_append, findHours_cons, findHours_cons]
      match r with
      | [] =>
        simp only [List.nil_append]
        match t, ht with
        | [], _ => rfl
        | w :: t2, ht =>
          have hw : pyWS w = true := ht w (by simp)
          have hw0 : w ≠ '0' := by
            rcases pyWS_cases w hw with rfl | rfl | rfl | rfl | rfl | rfl <;> decide
          have hw1 : w ≠ '1' := by
            rcases pyWS_cases w hw with rfl | rfl | rfl | rfl | rfl | rfl <;> decide
          have hall : findHours (w :: t2) = [] := findHours_all_ws _ ht
          rw [if_neg (show ¬(c = '1' ∧ (w :: t2).head? = some '0') from
                fun h => hw0 (Option.some.inj h.2)),
              if_neg (show ¬(c = '1' ∧ (w :: t2).head? = some '1') from
                fun h => hw1 (Option.some.inj h.2)),
              if_neg (show ¬(c = '1' ∧ ([] : List Char).head? = some '0') from
                fun h => Option.noConfusion h.2),
              if_neg (show ¬(c = '1' ∧ ([] : List Char).head? = some '1') from
                fun h => Option.noConfusion h.2)]
          by_cases hd : '1' ≤ c ∧ c ≤ '9' <;> simp [hd, hall, findHours]
      | d :: r2 =>
        simp only [List.cons_append, List.head?_cons, List.tail_cons]
        have hlen : r2.length ≤ n := by simp at hl; omega
        have hlen2 : (d :: r2).length ≤ n := by simp at hl ⊢; omega
        have ih1 : findHours (r2 ++ t) = findHours r2 := ih r2 hlen
        have ih2 : findHours (d :: (r2 ++ t)) = findHours (d :: r2) := by
          have := ih (d :: r2) hlen2
          simpa using this
        split_ifs <;> simp [ih1, ih2]

theorem findHours_dropWhile (l : List Char) :
    findHours (l.dropWhile pyWS) = findHours l := by
  induction l with
  | nil => rfl
  | cons c r ih =>
    by_cases h : pyWS c
    · rw [List.dropWhile_cons_of_pos h, ih, findHours_ws c r h]
    · rw [List.dropWhile_cons_of_neg h]

theorem findHours_trim (l : List Char) : findHours (trimList l) = findHours l := by
  have h1 : findHours (l.dropWhile pyWS) = findHours l := findHours_dropWhile l
  have hts : ∀ c ∈ (((l.dropWhile pyWS).reverse.takeWhile pyWS).reverse), pyWS c = true := by
    intro c hcmem
    rw [List.mem_reverse] at hcmem
    exact List.mem_takeWhile_imp hcmem
  have decomp : l.dropWhile pyWS =
      trimList l ++ ((l.dropWhile pyWS).reverse.takeWhile pyWS).reverse := by
    conv_lhs => rw [← List.reverse_reverse (l.dropWhile pyWS),
      ← List.takeWhile_append_dropWhile (p := pyWS) (l := (l.dropWhile pyWS).reverse)]
    rw [List.reverse_append]
    rfl
  calc findHours (trimList l)
      = findHours (trimList l ++ ((l.dropWhile pyWS).reverse.takeWhile pyWS).reverse) :=
        (findHours_append_ws _ hts _).symm
    _ = findHours (l.dropWhile pyWS) := by rw [← decomp]
    _ = findHours l := h1

theorem parse_hours_eq_raw (s : String) : parse_hours s = findHours s.data := by
  unfold parse_hours
  by_cases h : (trimList s.data).isEmpty
  · rw [if_pos h]
    obtain he : trimList s.data = [] := List.isEmpty_iff.mp h
    rw [← findHours_trim s.data, he]
    rfl
  · rw [if_neg h]
    exact findHours_trim s.data

theorem findHoursSpec_eq (l : List Char) : findHoursSpec l = findHours l := by
  suffices H : ∀ n l, l.length ≤ n → findHoursSpec l = findHours l from H l.length l le_rfl
  intro n
  induction n with
  | zero =>
    intro l hl
    obtain rfl : l = [] := List.length_eq_zero.mp (Nat.le_zero.mp hl)
    simp [findHoursSpec, findHours]
  | succ n ih =>
    intro l hl
    match l with
    | [] => simp [findHoursSpec, findHours]
    | c :: r =>
      rw [findHours_cons]
      rw [findHoursSpec]
      have htail : r.tail.length ≤ n := by
        simp at hl
        have := List.length_tail r
        omega
      have hr : r.length ≤ n := by simp at hl; omega
      split_ifs <;> simp [ih _ htail, ih _ hr]

theorem pyWS_not_day (c : Char) (hc : pyWS c = true) :
    c ≠ 'T' ∧ c ≠ 'W' ∧ c ≠ 'M' ∧ c ≠ 'F' ∧ c ≠ 'S' ∧ c ≠ 'h' := by
  rcases pyWS_cases c hc with rfl | rfl | rfl | rfl | rfl | rfl <;> decide

theorem findDays_cons (c : Char) (r : List Char) :
    findDays (c :: r) =
      if c = 'T' ∧ r.head? = some 'h' then "Th" :: findDays r.tail
      else if c = 'W' then "W" :: findDays r
      else if c = 'M' then "M" :: findDays r
      else if c = 'F' then "F" :: findDays r
      else if c = 'T' then "T" :: findDays r
      else if c = 'S' then "S" :: findDays r
      else findDays r := by
  by_cases hc : c = 'T'
  · subst hc
    cases r with
    | nil => simp [findDays]
    | cons d r2 =>
      by_cases hd : d = 'h'
      · subst hd
        simp [findDays]
      · rw [findDays.eq_def]
        split
        · simp_all
        · simp_all
        · rename_i heq
          obtain ⟨rfl, rfl⟩ := heq
          simp [hd]
  · rw [findDays.eq_def]
    cases r with
    | nil => simp_all
    | cons d r2 => split <;> simp_all

theorem findDays_ws (c : Char) (r : List Char) (hc : pyWS c = true) :
    findDays (c :: r) = findDays r := by
  obtain ⟨hT, hW, hM, hF, hS, _⟩ := pyWS_not_day c hc
  rw [findDays_cons, if_neg (fun h => hT h.1), if_neg hW, if_neg hM, if_neg hF,
    if_neg hT, if_neg hS]

theorem findDays_all_ws (t : List Char) (ht : ∀ c ∈ t, pyWS c = true) :
    findDays t = [] := by
  induction t with
  | nil => rfl
  | cons c r ih =>
    rw [findDays_ws c r (ht c (by simp))]
    exact ih (fun d hd => ht d (by simp [hd]))

theorem findDays_append_ws (t : List Char) (ht : ∀ c ∈ t, pyWS c = true) :
    ∀ l, findDays (l ++ t) = findDays l := by
  suffices H : ∀ n l, l.length ≤ n → findDays (l ++ t) = findDays l from
    fun l => H l.length l le_rfl
  intro n
  induction n with
  | zero =>
    intro l hl
    obtain rfl : l = [] := List.length_eq_zero.mp (Nat.le_zero.mp hl)
    simpa [findDays] using findDays_all_ws t ht
  | succ n ih =>
    intro l hl
    match l with
    | [] => simpa [findDays] using findDays_all_ws t ht
    | c :: r =>
      rw [List.cons_append, findDays_cons, findDays_cons]
      match r with
      | [] =>
        simp only [List.nil_append]
        match t, ht with
        | [], _ => rfl
        | w :: t2, ht =>
          have hw : pyWS w = true := ht w (by simp)
          have hwh : w ≠ 'h' := (pyWS_not_day w hw).2.2.2.2.2
          have hall : findDays (w :: t2) = [] := findDays_all_ws _ ht
          rw [if_neg (show ¬(c = 'T' ∧ (w :: t2).head? = some 'h') from
                fun h => hwh (Option.some.inj h.2)),
              if_neg (show ¬(c = 'T' ∧ ([] : List Char).head? = some 'h') from
                fun h => Option.noConfusion h.2)]
          split_ifs <;> simp [hall, findDays]
      | d :: r2 =>
        simp only [List.cons_append, List.head?_cons, List.tail_cons]
        have hlen : r2.length ≤ n := by simp at hl; omega
        have hlen2 : (d :: r2).length ≤ n := by simp at hl ⊢; omega
        have ih1 : findDays (r2 ++ t) = findDays r2 := ih r2 hlen
        have ih2 : findDays (d :: (r2 ++ t)) = findDays (d :: r2) := by
          have := ih (d :: r2) hlen2
          simpa using this
        split_ifs <;> simp [ih1, ih2]

theorem findDays_dropWhile (l : List Char) :
    findDays (l.dropWhile pyWS) = findDays l := by
  induction l with
  | nil => rfl
  | cons c r ih =>
    by_cases h : pyWS c
    · rw [List.dropWhile_cons_of_pos h, ih, findDays_ws c r h]
    · rw [List.dropWhile_cons_of_neg h]

theorem findDays_trim (l : List Char) : findDays (trimList l) = findDays l := by
  have h1 : findDays (l.dropWhile pyWS) = findDays l := findDays_dropWhile l
  have hts : ∀ c ∈ (((l.dropWhile pyWS).reverse.takeWhile pyWS).reverse), pyWS c = true := by
    intro c hcmem
    rw [List.mem_reverse] at hcmem
    exact List.mem_takeWhile_imp hcmem
  have decomp : l.dropWhile pyWS =
      trimList l ++ ((l.dropWhile pyWS).reverse.takeWhile pyWS).reverse := by
    conv_lhs => rw [← List.reverse_reverse (l.dropWhile pyWS),
      ← List.takeWhile_append_dropWhile (p := pyWS) (l := (l.dropWhile pyWS).reverse)]
    rw [List.reverse_append]
    rfl
  calc findDays (trimList l)
      = findDays (trimList l ++ ((l.dropWhile pyWS).reverse.takeWhile pyWS).reverse) :=
        (findDays_append_ws _ hts _).symm
    _ = findDays (l.dropWhile pyWS) := by rw [← decomp]
    _ = findDays l := h1

theorem parse_days_eq_raw (s : String) : parse_days s = findDays s.data := by
  unfold parse_days
  by_cases h : (trimList s.data).isEmpty
  · rw [if_pos h]
    obtain he : trimList s.data = [] := List.isEmpty_iff.mp h
    rw [← findDays_trim s.data, he]
    rfl
  · rw [if_neg h]
    exact findDays_trim s.data

theorem findDaysSpec_eq (l : List Char) : findDaysSpec l = findDays l := by
  suffices H : ∀ n l, l.length ≤ n → findDaysSpec l = findDays l from H l.length l le_rfl
  intro n
  induction n with
  | zero =>
    intro l hl
    obtain rfl : l = [] := List.length_eq_zero.mp (Nat.le_zero.mp hl)
    simp [findDaysSpec, findDays]
  | succ n ih =>
    intro l hl
    match l with
    | [] => simp [findDaysSpec, findDays]
    | c :: r =>
      have htail : r.tail.length ≤ n := by
        simp at hl
        have := List.length_tail r
        omega
      have hr : r.length ≤ n := by simp at hl; omega
      have e1 : findDaysSpec r.tail = findDays r.tail := ih _ htail
      have e2 : findDaysSpec r = findDays r := ih _ hr
      rw [findDays_cons, findDaysSpec, e1, e2]
      split_ifs <;> simp_all [dayLetter]

theorem lookupR_insertR_self (k : String) (v : Course) (l : List (String × Course)) :
    lookupR k (insertR k v l) = some v := by
  induction l with
  | nil => simp [insertR, lookupR]
  | cons p t ih =>
    by_cases h : p.1 = k
    · simp [insertR, lookupR, h]
    · simp [insertR, lookupR, h, ih]

theorem lookupR_insertR_ne (j k : String) (v : Course) (l : List (String × Course))
    (h : j ≠ k) : lookupR j (insertR k v l) = lookupR j l := by
  induction l with
  | nil => simp [insertR, lookupR, Ne.symm h]
  | cons p t ih =>
    obtain ⟨pk, pv⟩ := p
    by_cases hp : pk = k
    · subst hp
      simp [insertR, lookupR, Ne.symm h]
    · by_cases hj : pk = j <;> simp [insertR, lookupR, hp, hj, ih, h]

theorem keysR_insertR (k : String) (v : Course) (l : List (String × Course))
    (h : lookupR k l ≠ none) : keysR (insertR k v l) = keysR l := by
  induction l with
  | nil => simp [lookupR] at h
  | cons p t ih =>
    obtain ⟨pk, pv⟩ := p
    by_cases hp : pk = k
    · subst hp
      simp [insertR, keysR]
    · have h2 : lookupR k t ≠ none := by simpa [lookupR, hp] using h
      simp only [insertR, hp, if_false, keysR, List.map_cons]
      have := ih h2
      simp only [keysR] at this
      rw [this]

theorem stepDays_shape (c : Course) (d7 : String) :
    (pyStrip d7 = "" ∧ stepDays c d7 = Except.ok c) ∨
    (pyStrip d7 ≠ "" ∧ c.days = none ∧ stepDays c d7 = Except.error c) ∨
    (∃ ds, pyStrip d7 ≠ "" ∧ c.days = some ds ∧
      stepDays c d7 = Except.ok { c with days := some (ds ++ parse_days d7) }) := by
  by_cases h : pyStrip d7 = ""
  · exact Or.inl ⟨h, by simp [stepDays, h]⟩
  · cases hd : c.days with
    | none => exact Or.inr (Or.inl ⟨h, rfl, by simp [stepDays, h, hd]⟩)
    | some ds => exact Or.inr (Or.inr ⟨ds, h, rfl, by simp [stepDays, h, hd]⟩)

theorem stepHours_shape (c : Course) (d8 : String) :
    (pyStrip d8 = "" ∧ stepHours c d8 = Except.ok c) ∨
    (pyStrip d8 ≠ "" ∧ c.hours = none ∧ stepHours c d8 = Except.error c) ∨
    (∃ hs, pyStrip d8 ≠ "" ∧ c.hours = some hs ∧
      stepHours c d8 = Except.ok { c with hours := some (hs ++ parse_hours d8) }) := by
  by_cases h : pyStrip d8 = ""
  · exact Or.inl ⟨h, by simp [stepHours, h]⟩
  · cases hd : c.hours with
    | none => exact Or.inr (Or.inl ⟨h, rfl, by simp [stepHours, h, hd]⟩)
    | some hs => exact Or.inr (Or.inr ⟨hs, h, rfl, by simp [stepHours, h, hd]⟩)

/-- Fields other than `days`, `hours`, `rooms` survive a continuation row,
whether or not it raised. -/
theorem contCourse_frame (c : Course) (row : List Cell) (c2 : Course)
    (h : contCourse c row = Except.ok c2 ∨ contCourse c row = Except.error c2) :
    c2.code = c.code ∧ c2.name = c.name ∧ c2.credits = c.credits ∧ c2.ects = c.ects ∧
      c2.instructor = c.instructor ∧ c2.requiredForDept = c.requiredForDept := by
  rcases stepDays_shape c (cellAt row 7).text with ⟨h7, e1⟩ | ⟨h7, hd, e1⟩ | ⟨ds, h7, hd, e1⟩
  · rcases stepHours_shape c (cellAt row 8).text with ⟨h8, e2⟩ | ⟨h8, hh, e2⟩ | ⟨hs, h8, hh, e2⟩ <;>
      simp only [contCourse, e1, e2] at h <;> rcases h with h | h <;> simp only
        [Except.ok.injEq, Except.error.injEq, reduceCtorEq] at h <;> (try subst h) <;>
      exact ⟨rfl, rfl, rfl, rfl, rfl, rfl⟩
  · simp only [contCourse, e1] at h
    rcases h with h | h <;> simp only
        [Except.ok.injEq, Except.error.injEq, reduceCtorEq] at h <;> (try subst h) <;>
      exact ⟨rfl, rfl, rfl, rfl, rfl, rfl⟩
  · rcases stepHours_shape { c with days := some (ds ++ parse_days (cellAt row 7).text) }
        (cellAt row 8).text with ⟨h8, e2⟩ | ⟨h8, hh, e2⟩ | ⟨hs, h8, hh, e2⟩ <;>
      simp only [contCourse, e1, e2] at h <;> rcases h with h | h <;> simp only
        [Except.ok.injEq, Except.error.injEq, reduceCtorEq] at h <;> (try subst h) <;>
      exact ⟨rfl, rfl, rfl, rfl, rfl, rfl⟩

/-- On a row with at least 10 cells, an empty first cell and a live current
record, `processRowE` takes the continuation branch. -/
theorem processRowE_cont (st : ScrapeState) (row : List Cell) (k : String) (c : Course)
    (hlen : 10 ≤ row.length) (h0 : pyStrip (cellAt row 0).text = "")
    (hk : st.lastKey = some k) (hk0 : k ≠ "") (hc : lookupR k st.results = some c) :
    processRowE st row =
      match contCourse c row with
      | Except.ok c2 => Except.ok { st with results := insertR k c2 st.results }
      | Except.error c2 => Except.error { st with results := insertR k c2 st.results } := by
  unfold processRowE
  rw [if_neg (Nat.not_lt.mpr hlen)]
  simp only [h0, hk, hc, if_pos rfl, if_pos hk0, if_true]

end BounScraper

/-- **C2, counterexample.** A continuation row with at least 10 cells, an
empty first cell and a non-empty days cell, applied to a current record that
was created from a row whose days cell was empty: the code raises a
`KeyError` on `results[k]["days"]` (modelled as `Except.error`), so
processing the row does not succeed and nothing is appended. -/
theorem c2_counterexample :
    processRowE stNoDays rowContDays = Except.error stNoDays ∧
      rowContDays.length = 10 ∧ pyStrip (cellAt rowContDays 0).text = "" ∧
      stNoDays.lastKey = some "X1" ∧ lookupR "X1" stNoDays.results = some courseNoDays := by
  decide

/-- **C2, amended.** For every table row with at least 10 cells whose first
cell is empty while a current record exists, *provided the current record's
days list is present whenever cell 7 is non-empty and its hours list is
present whenever cell 8 is non-empty*, processing the row succeeds and the
record's days list becomes its previous days list followed by `parse_days` of
cell 7 (when non-empty), and likewise for hours with `parse_hours` of cell 8.
(For a record created from a row whose days or hours cell was empty, a
continuation row with that cell non-empty instead raises a `KeyError`.) -/
theorem c2_amended (st : ScrapeState) (row : List Cell) (k : String) (c : Course)
    (hlen : 10 ≤ row.length) (h0 : pyStrip (cellAt row 0).text = "")
    (hk : st.lastKey = some k) (hk0 : k ≠ "") (hc : lookupR k st.results = some c)
    (hd : pyStrip (cellAt row 7).text ≠ "" → c.days.isSome)
    (hh : pyStrip (cellAt row 8).text ≠ "" → c.hours.isSome) :
    ∃ st2, processRowE st row = Except.ok st2 ∧
      ∃ c2, lookupR k st2.results = some c2 ∧
        c2.days = (if pyStrip (cellAt row 7).text = "" then c.days
          else some (c.days.getD [] ++ parse_days (cellAt row 7).text)) ∧
        c2.hours = (if pyStrip (cellAt row 8).text = "" then c.hours
          else some (c.hours.getD [] ++ parse_hours (cellAt row 8).text)) := by
  have hbranch := processRowE_cont st row k c hlen h0 hk hk0 hc
  rcases stepDays_shape c (cellAt row 7).text with ⟨h7, e1⟩ | ⟨h7, hdn, e1⟩ | ⟨ds, h7, hdc, e1⟩
  · rcases stepHours_shape c (cellAt row 8).text with ⟨h8, e2⟩ | ⟨h8, hhn, e2⟩ | ⟨hs, h8, hhc, e2⟩
    · have hcc : contCourse c row =
          Except.ok { c with rooms := contRooms c.rooms (cellAt row 9) } := by
        simp only [contCourse, e1, e2]
      exact ⟨_, by rw [hbranch, hcc], _, lookupR_insertR_self k _ st.results,
        by simp [h7], by simp [h8]⟩
    · exact absurd (hh h8) (by simp [hhn])
    · have hcc : contCourse c row = Except.ok
          { c with
            hours := some (hs ++ parse_hours (cellAt row 8).text)
            rooms := contRooms c.rooms (cellAt row 9) } := by
        simp only [contCourse, e1, e2]
      exact ⟨_, by rw [hbranch, hcc], _, lookupR_insertR_self k _ st.results,
        by simp [h7], by simp [h8, hhc]⟩
  · exact absurd (hd h7) (by simp [hdn])
  · rcases stepHours_shape { c with days := some (ds ++ parse_days (cellAt row 7).text) }
        (cellAt row 8).text with ⟨h8, e2⟩ | ⟨h8, hhn, e2⟩ | ⟨hs, h8, hhc, e2⟩
    · have hcc : contCourse c row = Except.ok
          { c with
            days := some (ds ++ parse_days (cellAt row 7).text)
            rooms := contRooms c.rooms (cellAt row 9) } := by
        simp only [contCourse, e1, e2]
      exact ⟨_, by rw [hbranch, hcc], _, lookupR_insertR_self k _ st.results,
        by simp [h7, hdc], by simp [h8]⟩
    · exact absurd (hh h8) (by simpa using hhn)
    · have hcc : contCourse c row = Except.ok
          { c with
            days := some (ds ++ parse_days (cellAt row 7).text)
            hours := some (hs ++ parse_hours (cellAt row 8).text)
            rooms := contRooms c.rooms (cellAt row 9) } := by
        simp only [contCourse, e1, e2]
      exact ⟨_, by rw [hbranch, hcc], _, lookupR_insertR_self k _ st.results,
        by simp [h7, hdc], by simpa [h8] using (congrArg (Option.getD · []) hhc).symm⟩

/-- Witness for C2's amended theorem at a concrete input: the scenario's
continuation row B applied to the record that row A created. -/
theorem c2_amended_witness :
    ∃ st2, processRowE ⟨[("CMPE150", (newEntry rowA).2)], some "CMPE150"⟩ rowB =
        Except.ok st2 ∧
      ∃ c2, lookupR "CMPE150" st2.results = some c2 ∧
        c2.days = (if pyStrip (cellAt rowB 7).text = "" then (newEntry rowA).2.days
          else some ((newEntry rowA).2.days.getD [] ++ parse_days (cellAt rowB 7).text)) ∧
        c2.hours = (if pyStrip (cellAt rowB 8).text = "" then (newEntry rowA).2.hours
          else some ((newEntry rowA).2.hours.getD [] ++ parse_hours (cellAt rowB 8).text)) :=
  c2_amended ⟨[("CMPE150", (newEntry rowA).2)], some "CMPE150"⟩ rowB "CMPE150"
    (newEntry rowA).2 (by decide) (by decide) rfl (by decide) (by decide)
    (fun _ => by decide) (fun _ => by decide)

/-- **C10.** Processing a continuation row (empty first cell with a current
record present) touches at most the days, hours and rooms lists of the
record the current-record pointer designates — whether or not the row raised:
the pointer is unchanged, the key set of the results dict is unchanged, every
other record is unchanged, and the designated record keeps its code, name,
credits, ects, instructor and requiredForDept fields. -/
theorem c10_continuation_frame (st : ScrapeState) (row : List Cell) (k : String) (c : Course)
    (hlen : 10 ≤ row.length) (h0 : pyStrip (cellAt row 0).text = "")
    (hk : st.lastKey = some k) (hk0 : k ≠ "") (hc : lookupR k st.results = some c) :
    (rowOutcome (processRowE st row)).lastKey = st.lastKey ∧
    keysR (rowOutcome (processRowE st row)).results = keysR st.results ∧
    (∀ j, j ≠ k →
      lookupR j (rowOutcome (processRowE st row)).results = lookupR j st.results) ∧
    ∃ c2, lookupR k (rowOutcome (processRowE st row)).results = some c2 ∧
      c2.code = c.code ∧ c2.name = c.name ∧ c2.credits = c.credits ∧ c2.ects = c.ects ∧
      c2.instructor = c.instructor ∧ c2.requiredForDept = c.requiredForDept := by
  have hbranch := processRowE_cont st row k c hlen h0 hk hk0 hc
  have hne : lookupR k st.results ≠ none := by simp [hc]
  cases hcc : contCourse c row with
  | ok c2 =>
    have hro : rowOutcome (processRowE st row) =
        { st with results := insertR k c2 st.results } := by
      rw [hbranch, hcc]
      rfl
    have hfr := contCourse_frame c row c2 (Or.inl hcc)
    rw [hro]
    exact ⟨rfl, keysR_insertR k c2 st.results hne,
      fun j hj => lookupR_insertR_ne j k c2 st.results hj,
      c2, lookupR_insertR_self k c2 st.results,
      hfr.1, hfr.2.1, hfr.2.2.1, hfr.2.2.2.1, hfr.2.2.2.2.1, hfr.2.2.2.2.2⟩
  | error c2 =>
    have hro : rowOutcome (processRowE st row) =
        { st with results := insertR k c2 st.results } := by
      rw [hbranch, hcc]
      rfl
    have hfr := contCourse_frame c row c2 (Or.inr hcc)
    rw [hro]
    exact ⟨rfl, keysR_insertR k c2 st.results hne,
      fun j hj => lookupR_insertR_ne j k c2 st.results hj,
      c2, lookupR_insertR_self k c2 st.results,
      hfr.1, hfr.2.1, hfr.2.2.1, hfr.2.2.2.1, hfr.2.2.2.2.1, hfr.2.2.2.2.2⟩

/-- Witness for C10 at a concrete input — here the continuation row even
raises (`days` is missing), and the frame still holds. -/
theorem c10_witness :
    (rowOutcome (processRowE stNoDays rowContDays)).lastKey = stNoDays.lastKey ∧
    keysR (rowOutcome (processRowE stNoDays rowContDays)).results = keysR stNoDays.results ∧
    (∀ j, j ≠ "X1" →
      lookupR j (rowOutcome (processRowE stNoDays rowContDays)).results =
        lookupR j stNoDays.results) ∧
    ∃ c2, lookupR "X1" (rowOutcome (processRowE stNoDays rowContDays)).results = some c2 ∧
      c2.code = courseNoDays.code ∧ c2.name = courseNoDays.name ∧
      c2.credits = courseNoDays.credits ∧ c2.ects = courseNoDays.ects ∧
      c2.instructor = courseNoDays.instructor ∧
      c2.requiredForDept = courseNoDays.requiredForDept :=
  c10_continuation_frame stNoDays rowContDays "X1" courseNoDays
    (by decide) (by decide) rfl (by decide) (by decide)

/-- **C4, counterexample.** On the new-record path, a rooms cell with empty
text whose child spans exist but are all whitespace-only yields the empty
rooms list, not `["N/A"]` as the claim states. -/
theorem c4_counterexample :
    (newEntry rowBlankSpan).2.rooms = [] ∧
      (newEntry rowBlankSpan).2.rooms ≠ ["N/A"] ∧
      pyStrip (cellAt rowBlankSpan 9).text = "" ∧ (cellAt rowBlankSpan 9).spans = [" "] := by
  decide

/-- **C7, counterexample.** The code removes only space characters
(`.replace(" ", "")`) from the course code, not all whitespace: a code cell
`"CMPE\t150"` keeps its internal tab, so the record's key differs from "the
course code with whitespace removed". -/
theorem c7_counterexample :
    (newEntry rowTabCode).1 = "CMPE\t150" ∧
      (newEntry rowTabCode).1 ≠ removeAllWhitespace (cellAt rowTabCode 0).text := by
  decide

/-- **C4, amended.** On the new-record path, when the rooms cell's rendered
text is empty: with child inline elements present the result is the ordered
list of their non-empty texts — which is the *empty list*, not `["N/A"]`,
when all child texts are blank — and `["N/A"]` results exactly when there are
no child elements.  The spec's fallback scenario holds as written. -/
theorem c4_amended :
    (∀ cell : Cell, pyStrip cell.text = "" →
      roomsNew cell = if cell.spans.isEmpty then ["N/A"] else spanTexts cell) ∧
    roomsNew ⟨"", ["Z01", "Z02"]⟩ = ["Z01", "Z02"] ∧
    roomsNew ⟨"", []⟩ = ["N/A"] := by
  refine ⟨?_, by decide, by decide⟩
  intro cell h
  have hOn : containsSub "Online" "" = false := by decide
  by_cases hs : cell.spans.isEmpty <;> simp [roomsNew, h, hOn, hs]

/-- Witness for C4's amended theorem: a rooms cell with empty text and spans
`["Z01", " ", "Z02"]` resolves to the non-empty span texts. -/
theorem c4_amended_witness :
    roomsNew ⟨"", ["Z01", " ", "Z02"]⟩ =
      (if (["Z01", " ", "Z02"] : List String).isEmpty then ["N/A"]
       else spanTexts ⟨"", ["Z01", " ", "Z02"]⟩) :=
  c4_amended.1 ⟨"", ["Z01", " ", "Z02"]⟩ (by decide)

/-- **C7, amended.** For every new-record row, the record's key is the
stripped course code with *space characters* removed (other internal
whitespace, such as a tab, is kept); when the uppercased course name contains
`LAB` or `P.S.` and the stripped section with spaces removed is non-empty,
the key is the base key followed by `.` and that section.  The two lab rows
with sections `A` and `B` produce the two distinct keys `CMPE150.A` and
`CMPE150.B`. -/
theorem c7_amended :
    (∀ st : ScrapeState, ∀ row : List Cell, 10 ≤ row.length →
      pyStrip (cellAt row 0).text ≠ "" →
      processRowE st row =
        Except.ok ⟨insertR (keySpec row) (newEntry row).2 st.results, some (keySpec row)⟩) ∧
    keysR (processRows ⟨[], none⟩ [rowLabA, rowLabB]).results = ["CMPE150.A", "CMPE150.B"] ∧
    ("CMPE150.A" : String) ≠ "CMPE150.B" := by
  refine ⟨?_, by decide, by decide⟩
  intro st row hlen h0
  have hkey : (newEntry row).1 = keySpec row := rfl
  unfold processRowE
  rw [if_neg (Nat.not_lt.mpr hlen)]
  simp only [if_neg h0, hkey]

/-- Witness for C7's amended theorem at the section-A lab row. -/
theorem c7_amended_witness :
    processRowE ⟨[], none⟩ rowLabA =
      Except.ok ⟨insertR (keySpec rowLabA) (newEntry rowLabA).2 [], some (keySpec rowLabA)⟩ :=
  c7_amended.1 ⟨[], none⟩ rowLabA (by decide) (by decide)

/-- **C9, counterexample.** `fetch_semesters_from_website` wraps its body in
`try`/`finally` with no `except`: when a browser session has been acquired
but the semester selector element is not found, the exception propagates to
the caller (after `driver.quit()`), contradicting the claim that no failure
is propagated. -/
theorem c9_counterexample :
    fetch_semesters_from_website (some ⟨none⟩) = Except.error () := by
  decide

/-- **C9, amended.** Failure to *acquire* a browser session is handled
without an exception: a plain message and an empty semester list, so the run
ends without a stack trace.  A failure after a session is acquired — the
semester selector element not found — propagates an exception to the caller
(the `try`/`finally` quits the browser but has no `except`); with the
selector present, the truthy option values are returned. -/
theorem c9_amended :
    fetch_semesters_from_website none = Except.ok [] ∧
    (∀ d : SemDriver, d.selectOptions = none →
      fetch_semesters_from_website (some d) = Except.error ()) ∧
    (∀ d : SemDriver, ∀ opts : List String, d.selectOptions = some opts →
      fetch_semesters_from_website (some d) = Except.ok (opts.filter (fun v => v ≠ ""))) := by
  refine ⟨rfl, ?_, ?_⟩
  · intro d hd
    simp [fetch_semesters_from_website, hd]
  · intro d opts hd
    simp [fetch_semesters_from_website, hd]

/-- **C8.** For every input string the numeric field parsers return normally:
the `try/except` catches the `ValueError` (modelled by the `Except` result of
`int_py`/`float_py`), so `parse_credits` returns the parsed integer on a
valid integer literal and `0` otherwise, and `parse_ects` returns the parsed
float value (a `FloatVal`: exact rational when finite, `inf`/`nan` for the
special literals) on a valid float literal and `0.0` otherwise. -/
theorem c8_numeric_parsers_never_raise (s : String) :
    (∀ n : Int, pyInt s = some n → parse_credits s = n) ∧
    (pyInt s = none → parse_credits s = 0) ∧
    (∀ v : FloatVal, pyFloat s = some v → parse_ects s = v) ∧
    (pyFloat s = none → parse_ects s = FloatVal.fin 0) := by
  refine ⟨?_, ?_, ?_, ?_⟩
  · intro n h
    simp [parse_credits, int_py, h]
  · intro h
    simp [parse_credits, int_py, h]
  · intro v h
    simp [parse_ects, float_py, h]
  · intro h
    simp [parse_ects, float_py, h]

/-- Witness for C8 at concrete inputs: valid literals (including an infinity
literal), an underscore-misplaced integer literal that `int()` rejects, and a
comma decimal that `float()` rejects. -/
theorem c8_witness :
    parse_credits " 42" = 42 ∧ parse_credits "_5" = 0 ∧
    parse_ects "6" = FloatVal.fin 6 ∧ parse_ects "inf" = FloatVal.inf false ∧
    parse_ects "3,5" = FloatVal.fin 0 :=
  ⟨(c8_numeric_parsers_never_raise " 42").1 42 (by decide),
   (c8_numeric_parsers_never_raise "_5").2.1 (by decide),
   (c8_numeric_parsers_never_raise "6").2.2.1 (FloatVal.fin 6) (by decide),
   (c8_numeric_parsers_never_raise "inf").2.2.1 (FloatVal.inf false) (by decide),
   (c8_numeric_parsers_never_raise "3,5").2.2.2 (by decide)⟩

/-- Witness for C9's amended theorem: a found selector with one truthy and
one falsy option value yields the truthy one. -/
theorem c9_amended_witness :
    fetch_semesters_from_website (some ⟨some ["2024/2025-1", ""]⟩) =
      Except.ok ((["2024/2025-1", ""] : List String).filter (fun v => v ≠ "")) :=
  c9_amended.2.2 ⟨some ["2024/2025-1", ""]⟩ ["2024/2025-1", ""] rfl

/-- **C5.** For every input string, `parse_hours` returns the ordered token
list of the greedy left-to-right scan that prefers the two-digit tokens `10`
and `11` over a single digit at each position, matches digits `1`–`9`
individually otherwise, and silently skips characters that match no token
(`findHoursSpec`); in particular `parse_hours "12391011"` is
`["1","2","3","9","10","11"]` and `parse_hours "101"` is `["10","1"]`. -/
theorem c5_parse_hours_greedy :
    (∀ s : String, parse_hours s = findHoursSpec s.data) ∧
    parse_hours "12391011" = ["1", "2", "3", "9", "10", "11"] ∧
    parse_hours "101" = ["10", "1"] :=
  ⟨fun s => (parse_hours_eq_raw s).trans (findHoursSpec_eq s.data).symm,
   by decide, by decide⟩

/-- **C6.** For every input string, `parse_days` returns the ordered token
list of the greedy left-to-right scan over the token set
`Th, W, M, F, T, S` that prefers `Th` over the single-letter token `T` at
each position and silently skips non-matching characters (`findDaysSpec`);
in particular `parse_days "WWWThThTh"` is `["W","W","W","Th","Th","Th"]` and
`parse_days "MThF"` is `["M","Th","F"]`. -/
theorem c6_parse_days_greedy :
    (∀ s : String, parse_days s = findDaysSpec s.data) ∧
    parse_days "WWWThThTh" = ["W", "W", "W", "Th", "Th", "Th"] ∧
    parse_days "MThF" = ["M", "Th", "F"] :=
  ⟨fun s => (parse_days_eq_raw s).trans (findDaysSpec_eq s.data).symm,
   by decide, by decide⟩
